import Mathlib

/-!
Verification development for `fetching-language-info.py`, a one-shot
GitHub-organization language-report generator.

The script lists every repository of an organization (paginated, with a
retry/backoff policy), then runs a two-pass aggregation: pass 1 collects the
union of all language names into a vocabulary which is frozen by sorting
alphabetically; pass 2 re-fetches each repository's language-byte map,
computes rounded percentages and a primary language, and streams one CSV row
per successfully fetched repository.

The embedding below is a shallow model of that script:
* the network is an oracle (`net` for listing pages, `f1`/`f2` for the two
  language-fetch passes);
* wall-clock time during the listing phase is an integer (the value of
  `int(datetime.now().timestamp())`), advanced only by the script's `sleep`
  calls, all of which last a whole number of seconds there;
* Python's `round(x, 2)` is modelled on rationals as rounding `100*x` to the
  nearest integer and dividing by 100 (the tie-breaking direction of the
  rounding is irrelevant to every property proved here);
* the output CSV file is modelled as an `Option Report`: `none` means the
  run aborted before the file was opened, `some` holds the header and the
  rows that were written.
-/

/-- One repository's metadata, exactly the fields the script projects out of
a listing-page record (lines 88-99 of the source). The `private` field of
the JSON record is called `isPrivate` here because `private` is a Lean
keyword. -/
structure Repo where
  name : String
  languages_url : String
  html_url : String
  description : String
  created_at : String
  updated_at : String
  stargazers_count : Nat
  forks_count : Nat
  isPrivate : Bool
deriving DecidableEq, Repr

/-- Outcome of one per-repository language fetch
(`requests.get(repo["languages_url"], ...)`).  `ok` carries the JSON
language-byte object as an association list in the platform's native key
order; the error constructors distinguish the cases the script's exception
handler looks at: a 403 rate-limit response (carrying the remaining-quota and
reset-time headers), a "Cannot allocate memory" error, and any other
`RequestException`. -/
inductive LangOutcome where
  | ok (langs : List (String × Nat))
  | err403 (remaining : Nat) (reset : Nat)
  | memErr
  | otherErr
deriving DecidableEq, Repr

/-- Outcome of one listing-page request (`requests.get(repos_url, ...)`).
`ok` carries the page body (already projected to `Repo`) together with the
`X-RateLimit-Remaining` and `X-RateLimit-Reset` headers. -/
inductive PageOutcome where
  | ok (body : List Repo) (remaining : Nat) (reset : Nat)
  | notFound
  | forbidden (reset : Nat)
  | memErr
  | otherErr
deriving DecidableEq, Repr

/-- A CSV cell as handed to `csv.writer.writerow`: the script appends Python
strings, ints and floats; `csv` stringifies each with `str()`. -/
inductive Cell where
  | str (s : String)
  | int (n : Int)
  | float (q : ℚ)
deriving DecidableEq, Repr

/-- Numeric value of a cell (0 for text cells), used to state properties
about percentage sums. -/
def cellVal : Cell → ℚ
  | .str _ => 0
  | .int n => (n : ℚ)
  | .float q => q

/-- Python dict lookup `d.get(lang, default)` on the association list coming
from a JSON object (JSON object keys are unique, so first-match semantics
coincide with dict semantics). -/
def lookupStr (lang : String) : List (String × Nat) → Option Nat
  | [] => none
  | (l, b) :: rest => if l = lang then some b else lookupStr lang rest

/-- The source's `total_bytes = sum(languages.values())` (line 189). -/
def totalBytes (L : List (String × Nat)) : Nat :=
  (L.map Prod.snd).sum

/-- Python `round(x, 2)` on rationals: round `100*x` to the nearest integer
and divide by 100 (line 192). -/
def round2 (q : ℚ) : ℚ :=
  (round (q * 100) : ℚ) / 100

/-- The percentage cell the script produces for `lang` in a row whose pass-2
language map is `L`: `languages_with_percentages.get(lang, 0)` where the dict
holds `round(bytes/total*100, 2)` (a float) when `total_bytes > 0` and the
int `0` otherwise (lines 190-193 and 212-214). -/
def pctCell (L : List (String × Nat)) (lang : String) : Cell :=
  match lookupStr lang L with
  | some b =>
      if 0 < totalBytes L then
        .float (round2 ((b : ℚ) / (totalBytes L : ℚ) * 100))
      else .int 0
  | none => .int 0

/-- Tail of Python `max(items, key=lambda x: x[1])`: keeps the current
maximum and replaces it only on a strictly larger key, so the first maximum
in iteration order wins ties. -/
def primAuxP : String → Nat → List (String × Nat) → String × Nat
  | l, b, [] => (l, b)
  | l, b, (l2, b2) :: rest =>
      if b2 > b then primAuxP l2 b2 rest else primAuxP l b rest

/-- The source's `max(languages.items(), key=lambda x: x[1])[0] if languages
else "None"` (line 196). -/
def primaryLanguage : List (String × Nat) → String
  | [] => "None"
  | (l, b) :: rest => (primAuxP l b rest).1

/-- Adding one element to the Python set `all_languages` (membership test
first so the model list stays duplicate-free, like a set). -/
def insertNew (acc : List String) (s : String) : List String :=
  if s ∈ acc then acc else acc ++ [s]

/-- The source's `all_languages.update(languages.keys())` (line 140). -/
def addKeys (acc : List String) (keys : List String) : List String :=
  keys.foldl insertNew acc

/-- The batch slicing `all_repos[i:i+batch_size] for i in range(0, total, batch_size)`,
with fuel (the Python loop would not terminate for `batch_size = 0`;
`batches` is only meaningful for `1 ≤ bs`). -/
def batchesGo : Nat → Nat → List Repo → List (List Repo)
  | 0, _, _ => []
  | _ + 1, _, [] => []
  | n + 1, bs, l => l.take bs :: batchesGo n bs (l.drop bs)

/-- The list of batches pass 1 and pass 2 iterate over. -/
def batches (bs : Nat) (l : List Repo) : List (List Repo) :=
  batchesGo l.length bs l

/-- Observable state of pass 1: the growing language set, plus a log of the
URLs requested and of the sleeps performed (to state the retry claims). -/
structure Pass1State where
  langs : List String
  requests : List String
  sleeps : List ℚ
deriving DecidableEq, Repr

/-- One repository of pass 1 (lines 135-151): issue exactly one request to
`repo["languages_url"]`; on success union the keys into the set and sleep
0.5 s; on a memory error sleep 30 s; on any other failure just log and move
on.  In every failure case the repository is skipped (`continue`), never
retried. -/
def pass1Step (f1 : Repo → LangOutcome) (st : Pass1State) (r : Repo) : Pass1State :=
  let st1 : Pass1State := { st with requests := st.requests ++ [r.languages_url] }
  match f1 r with
  | .ok L => { st1 with
      langs := addKeys st1.langs (L.map Prod.fst),
      sleeps := st1.sleeps ++ [(1 : ℚ) / 2] }
  | .memErr => { st1 with sleeps := st1.sleeps ++ [(30 : ℚ)] }
  | .err403 _ _ => st1
  | .otherErr => st1

/-- Pass 1 over all batches (lines 131-154). -/
def pass1 (f1 : Repo → LangOutcome) (repos : List Repo) (bs : Nat) : Pass1State :=
  (batches bs repos).foldl (fun st batch => batch.foldl (pass1Step f1) st)
    ⟨[], [], []⟩

/-- The source's `all_languages = sorted(all_languages)` (line 157): the
frozen vocabulary. -/
def pass1Vocab (f1 : Repo → LangOutcome) (repos : List Repo) (bs : Nat) : List String :=
  List.insertionSort (fun a b => a ≤ b) (pass1 f1 repos bs).langs

/-- The 9 fixed header names followed by one `lang (%)` column per
vocabulary entry (lines 160-167). -/
def headerRow (vocab : List String) : List String :=
  ["Repository", "URL", "Description", "Primary Language",
   "Created At", "Updated At", "Stars", "Forks", "Private"]
  ++ vocab.map (fun lang => lang ++ " (%)")

/-- The 9 fixed cells of a row (lines 199-209). -/
def fixedCells (r : Repo) (L : List (String × Nat)) : List Cell :=
  [.str r.name, .str r.html_url, .str r.description,
   .str (primaryLanguage L), .str r.created_at, .str r.updated_at,
   .int (r.stargazers_count : Int), .int (r.forks_count : Int),
   .str (if r.isPrivate then "Yes" else "No")]

/-- One emitted row: fixed cells then one percentage cell per vocabulary
language in vocabulary order (lines 199-216). -/
def mkRow (vocab : List String) (r : Repo) (L : List (String × Nat)) : List Cell :=
  fixedCells r L ++ vocab.map (pctCell L)

/-- One repository of pass 2 (lines 182-227): a successful fetch appends one
row immediately; any fetch failure skips the repository without emitting a
row. -/
def pass2Step (f2 : Repo → LangOutcome) (vocab : List String)
    (acc : List (List Cell)) (r : Repo) : List (List Cell) :=
  match f2 r with
  | .ok L => acc ++ [mkRow vocab r L]
  | _ => acc

/-- Pass 2 over all batches (lines 177-231); the rows written to the CSV, in
order. -/
def pass2Rows (f2 : Repo → LangOutcome) (vocab : List String)
    (repos : List Repo) (bs : Nat) : List (List Cell) :=
  (batches bs repos).foldl (fun acc batch => batch.foldl (pass2Step f2 vocab) acc) []

/-- Events observable from outside the listing loop: requests issued (a page
number determines the whole request: same URL, params `{page, per_page: 30}`)
and sleeps performed.  Every sleep of the listing loop lasts a whole number
of seconds, so durations are integers here. -/
inductive Ev where
  | request (page : Nat)
  | sleep (d : ℤ)
deriving DecidableEq, Repr

/-- State of the listing loop (lines 44-116).  The clock is the value of
`int(datetime.now().timestamp())`; network calls are instantaneous in the
model, so the clock advances exactly by the script's sleeps, all of which
are integral. -/
structure LState where
  repos : List Repo
  page : Nat
  attempt : Nat
  clock : ℤ
  events : List Ev
deriving DecidableEq, Repr

/-- Result of the listing phase: normal completion (empty page reached),
abort (404 or unrecoverable error), or out of fuel (the model's stand-in for
a run that is still looping). -/
inductive LRes where
  | done (st : LState)
  | aborted (notFound : Bool) (st : LState)
  | outOfFuel (st : LState)
deriving DecidableEq, Repr

/-- Final state carried by a listing result. -/
def LRes.state : LRes → LState
  | .done st => st
  | .aborted _ st => st
  | .outOfFuel st => st

/-- One `sleep(d)` call: advance the clock and log the event. -/
def sleepFor (st : LState) (d : ℤ) : LState :=
  { st with clock := st.clock + d, events := st.events ++ [.sleep d] }

/-- Log the request for the current page (issued at the top of every loop
iteration). -/
def logReq (st : LState) : LState :=
  { st with events := st.events ++ [Ev.request st.page] }

/-- The state from which a failed page is retried: request logged, attempt
index bumped (the page — hence the URL and the params — is unchanged), and
the prescribed back-off slept. -/
def retrySt (st : LState) (w : ℤ) : LState :=
  sleepFor { logReq st with attempt := st.attempt + 1 } w

/-- The state after a successful non-empty page, before the inter-page
sleep: its repositories appended, the page advanced. -/
def advSt (st : LState) (body : List Repo) : LState :=
  { logReq st with repos := st.repos ++ body, page := st.page + 1, attempt := 0 }

/-- The listing loop (lines 52-116), fuelled.  The oracle `net` maps a page
number and a per-page attempt index to the outcome of that request.
Faithful to the source: 404 and unclassified errors abort; a 403 sleeps
`max(reset - int(now) + 1, 60)` and retries the same page; a memory error
sleeps 60 and retries; a successful empty page ends the loop with no further
sleep; a successful non-empty page appends its repositories, advances the
page and then sleeps `max(reset - int(now) + 1, 10)` if the remaining quota
is 0, else 1 second. -/
def runListing (net : Nat → Nat → PageOutcome) : Nat → LState → LRes
  | 0, st => .outOfFuel st
  | fuel + 1, st =>
    match net st.page st.attempt with
    | .notFound => .aborted true (logReq st)
    | .otherErr => .aborted false (logReq st)
    | .forbidden reset =>
        runListing net fuel (retrySt st (max ((reset : ℤ) - st.clock + 1) 60))
    | .memErr =>
        runListing net fuel (retrySt st 60)
    | .ok body rem reset =>
        if body.isEmpty then .done (logReq st)
        else
          runListing net fuel
            (if rem = 0 then sleepFor (advSt st body) (max ((reset : ℤ) - st.clock + 1) 10)
             else sleepFor (advSt st body) 1)

/-- Initial listing state: page 1, first attempt, nothing collected. -/
def initState (clock0 : ℤ) : LState :=
  ⟨[], 1, 0, clock0, []⟩

/-- The produced CSV: header plus data rows.  `none` (no `Report`) models
"no output file was created". -/
structure Report where
  header : List String
  rows : List (List Cell)
deriving DecidableEq, Repr

/-- The whole script (the function `get_github_repo_languages`): run the
listing; on abort return with no output file (the file is only opened at
line 172, after listing and pass 1 complete); otherwise freeze the pass-1
vocabulary, write the header and the pass-2 rows. -/
def get_github_repo_languages (net : Nat → Nat → PageOutcome)
    (f1 f2 : Repo → LangOutcome) (batch_size fuel : Nat) (clock0 : ℤ) :
    Option Report :=
  match runListing net fuel (initState clock0) with
  | .done st =>
      some ⟨headerRow (pass1Vocab f1 st.repos batch_size),
            pass2Rows f2 (pass1Vocab f1 st.repos batch_size) st.repos batch_size⟩
  | _ => none

/-- Python `str()` of the float values this script produces (floats whose
value is a decimal with at most two fractional digits, the outputs of
`round(_, 2)`): minimal digits, but an integral float keeps one `.0`.
`csv.writer` renders every non-string cell with `str()`. -/
def pyFloatStr (q : ℚ) : String :=
  let m : Int := ⌊q * 100⌋
  let i : Int := m / 100
  let f : Int := m % 100
  if f = 0 then toString i ++ ".0"
  else if f % 10 = 0 then toString i ++ "." ++ toString (f / 10)
  else if f < 10 then toString i ++ ".0" ++ toString f
  else toString i ++ "." ++ toString f

/-- The text `csv.writer` puts in a cell (field quoting aside, which no
claim concerns): strings verbatim, ints and floats via `str()`. -/
def renderCell : Cell → String
  | .str s => s
  | .int n => toString n
  | .float q => pyFloatStr q

/-- Number of characters after the first dot of a rendered number, if any. -/
def decimalsAfterDot : List Char → Option Nat
  | [] => none
  | c :: rest => if c = '.' then some rest.length else decimalsAfterDot rest

/-- A string consists of an integer part, a dot, and exactly two characters
after it — the shape "formatted to exactly two decimal places" asserts of a
numeric cell. -/
def hasTwoDecimals (s : String) : Bool :=
  decimalsAfterDot s.data = some 2

/-! ### Batching: for any positive batch size the batches partition the list -/

theorem batchesGo_flatten (bs : Nat) (hbs : 1 ≤ bs) :
    ∀ (n : Nat) (l : List Repo), l.length ≤ n → (batchesGo n bs l).flatten = l := by
  intro n
  induction n with
  | zero =>
    intro l hl
    rw [Nat.le_zero, List.length_eq_zero] at hl
    subst hl
    rfl
  | succ n ih =>
    intro l hl
    match l with
    | [] => rfl
    | x :: xs =>
      show (List.take bs (x :: xs) :: batchesGo n bs (List.drop bs (x :: xs))).flatten
          = x :: xs
      rw [List.flatten_cons, ih]
      · exact List.take_append_drop bs (x :: xs)
      · rw [List.length_drop]
        omega

theorem batches_flatten (bs : Nat) (hbs : 1 ≤ bs) (l : List Repo) :
    (batches bs l).flatten = l :=
  batchesGo_flatten bs hbs l.length l le_rfl

theorem foldl_batches {β : Type} (f : β → Repo → β) (init : β) (bs : Nat)
    (hbs : 1 ≤ bs) (l : List Repo) :
    (batches bs l).foldl (fun a b => b.foldl f a) init = l.foldl f init := by
  conv_rhs => rw [← batches_flatten bs hbs l]
  rw [List.foldl_flatten]

/-- With any positive batch size, pass 1 is the plain left fold over the
repository list. -/
theorem pass1_eq (f1 : Repo → LangOutcome) (repos : List Repo) (bs : Nat)
    (hbs : 1 ≤ bs) :
    pass1 f1 repos bs = repos.foldl (pass1Step f1) ⟨[], [], []⟩ :=
  foldl_batches (pass1Step f1) ⟨[], [], []⟩ bs hbs repos

/-- With any positive batch size, pass 2 is the plain left fold over the
repository list. -/
theorem pass2Rows_eq (f2 : Repo → LangOutcome) (vocab : List String)
    (repos : List Repo) (bs : Nat) (hbs : 1 ≤ bs) :
    pass2Rows f2 vocab repos bs = repos.foldl (pass2Step f2 vocab) [] :=
  foldl_batches (pass2Step f2 vocab) [] bs hbs repos

/-- The row selected (or not) for one repository in pass 2. -/
def rowOf (f2 : Repo → LangOutcome) (vocab : List String) (r : Repo) :
    Option (List Cell) :=
  match f2 r with
  | .ok L => some (mkRow vocab r L)
  | _ => none

theorem foldl_pass2Step (f2 : Repo → LangOutcome) (vocab : List String) :
    ∀ (repos : List Repo) (acc : List (List Cell)),
      repos.foldl (pass2Step f2 vocab) acc = acc ++ repos.filterMap (rowOf f2 vocab) := by
  intro repos
  induction repos with
  | nil => intro acc; simp
  | cons r rs ih =>
    intro acc
    rw [List.foldl_cons, ih, List.filterMap_cons]
    unfold pass2Step rowOf
    match f2 r with
    | .ok L => simp
    | .err403 a b => simp
    | .memErr => simp
    | .otherErr => simp

/-- Pass 2 emits a row for exactly the repositories whose fetch succeeds, in
order. -/
theorem pass2Rows_filterMap (f2 : Repo → LangOutcome) (vocab : List String)
    (repos : List Repo) (bs : Nat) (hbs : 1 ≤ bs) :
    pass2Rows f2 vocab repos bs = repos.filterMap (rowOf f2 vocab) := by
  rw [pass2Rows_eq f2 vocab repos bs hbs, foldl_pass2Step]
  rfl

/-! ### The pass-1 language set and the frozen vocabulary -/

theorem mem_insertNew (acc : List String) (s a : String) :
    a ∈ insertNew acc s ↔ a ∈ acc ∨ a = s := by
  unfold insertNew
  by_cases h : s ∈ acc
  · simp only [if_pos h]
    constructor
    · exact fun ha => Or.inl ha
    · rintro (ha | rfl)
      · exact ha
      · exact h
  · simp [if_neg h]

theorem nodup_insertNew (acc : List String) (s : String) (h : acc.Nodup) :
    (insertNew acc s).Nodup := by
  unfold insertNew
  by_cases hs : s ∈ acc
  · simpa [if_pos hs]
  · rw [if_neg hs, List.nodup_append]
    refine ⟨h, List.nodup_singleton s, ?_⟩
    intro a ha hb
    rw [List.mem_singleton] at hb
    subst hb
    exact hs ha

theorem mem_addKeys (keys : List String) :
    ∀ (acc : List String) (a : String),
      a ∈ addKeys acc keys ↔ a ∈ acc ∨ a ∈ keys := by
  induction keys with
  | nil => intro acc a; simp [addKeys]
  | cons k ks ih =>
    intro acc a
    show a ∈ addKeys (insertNew acc k) ks ↔ _
    rw [ih, mem_insertNew]
    simp only [List.mem_cons]
    tauto

theorem nodup_addKeys (keys : List String) :
    ∀ (acc : List String), acc.Nodup → (addKeys acc keys).Nodup := by
  induction keys with
  | nil => intro acc h; exact h
  | cons k ks ih =>
    intro acc h
    exact ih (insertNew acc k) (nodup_insertNew acc k h)

/-- Membership in the pass-1 language set: a language is collected iff some
repository's pass-1 fetch succeeded and reported it. -/
theorem pass1_langs_mem (f1 : Repo → LangOutcome) :
    ∀ (repos : List Repo) (st : Pass1State) (a : String),
      a ∈ (repos.foldl (pass1Step f1) st).langs ↔
        a ∈ st.langs ∨ ∃ r ∈ repos, ∃ L, f1 r = .ok L ∧ a ∈ L.map Prod.fst := by
  intro repos
  induction repos with
  | nil => intro st a; simp
  | cons r rs ih =>
    intro st a
    rw [List.foldl_cons, ih]
    cases hfr : f1 r with
    | ok L =>
      simp only [pass1Step, hfr, mem_addKeys, List.mem_cons]
      constructor
      · rintro (((hacc | hkeys) | ⟨r', hr', L', hL', haL'⟩))
        · exact Or.inl hacc
        · exact Or.inr ⟨r, Or.inl rfl, L, hfr, hkeys⟩
        · exact Or.inr ⟨r', Or.inr hr', L', hL', haL'⟩
      · rintro (hacc | ⟨r', (rfl | hr's), L', hL', haL'⟩)
        · exact Or.inl (Or.inl hacc)
        · rw [hfr] at hL'
          cases hL'
          exact Or.inl (Or.inr haL')
        · exact Or.inr ⟨r', hr's, L', hL', haL'⟩
    | err403 x y =>
      simp only [pass1Step, hfr, List.mem_cons]
      constructor
      · rintro (hacc | ⟨r', hr', L', hL', haL'⟩)
        · exact Or.inl hacc
        · exact Or.inr ⟨r', Or.inr hr', L', hL', haL'⟩
      · rintro (hacc | ⟨r', (rfl | hr's), L', hL', haL'⟩)
        · exact Or.inl hacc
        · rw [hfr] at hL'; cases hL'
        · exact Or.inr ⟨r', hr's, L', hL', haL'⟩
    | memErr =>
      simp only [pass1Step, hfr, List.mem_cons]
      constructor
      · rintro (hacc | ⟨r', hr', L', hL', haL'⟩)
        · exact Or.inl hacc
        · exact Or.inr ⟨r', Or.inr hr', L', hL', haL'⟩
      · rintro (hacc | ⟨r', (rfl | hr's), L', hL', haL'⟩)
        · exact Or.inl hacc
        · rw [hfr] at hL'; cases hL'
        · exact Or.inr ⟨r', hr's, L', hL', haL'⟩
    | otherErr =>
      simp only [pass1Step, hfr, List.mem_cons]
      constructor
      · rintro (hacc | ⟨r', hr', L', hL', haL'⟩)
        · exact Or.inl hacc
        · exact Or.inr ⟨r', Or.inr hr', L', hL', haL'⟩
      · rintro (hacc | ⟨r', (rfl | hr's), L', hL', haL'⟩)
        · exact Or.inl hacc
        · rw [hfr] at hL'; cases hL'
        · exact Or.inr ⟨r', hr's, L', hL', haL'⟩

theorem pass1_langs_nodup (f1 : Repo → LangOutcome) :
    ∀ (repos : List Repo) (st : Pass1State), st.langs.Nodup →
      (repos.foldl (pass1Step f1) st).langs.Nodup := by
  intro repos
  induction repos with
  | nil => intro st h; exact h
  | cons r rs ih =>
    intro st h
    rw [List.foldl_cons]
    apply ih
    unfold pass1Step
    match f1 r with
    | .ok L => exact nodup_addKeys (L.map Prod.fst) st.langs h
    | .err403 x y => exact h
    | .memErr => exact h
    | .otherErr => exact h

/-- Membership in the frozen vocabulary. -/
theorem mem_pass1Vocab (f1 : Repo → LangOutcome) (repos : List Repo) (bs : Nat)
    (hbs : 1 ≤ bs) (a : String) :
    a ∈ pass1Vocab f1 repos bs ↔
      ∃ r ∈ repos, ∃ L, f1 r = .ok L ∧ a ∈ L.map Prod.fst := by
  unfold pass1Vocab
  rw [(List.perm_insertionSort (fun a b => a ≤ b) (pass1 f1 repos bs).langs).mem_iff,
      pass1_eq f1 repos bs hbs, pass1_langs_mem]
  simp

/-- The frozen vocabulary is alphabetically sorted. -/
theorem pass1Vocab_sorted (f1 : Repo → LangOutcome) (repos : List Repo) (bs : Nat) :
    List.Sorted (fun a b => a ≤ b) (pass1Vocab f1 repos bs) :=
  List.sorted_insertionSort (fun a b => a ≤ b) (pass1 f1 repos bs).langs

/-- The frozen vocabulary has no duplicate column. -/
theorem pass1Vocab_nodup (f1 : Repo → LangOutcome) (repos : List Repo) (bs : Nat)
    (hbs : 1 ≤ bs) : (pass1Vocab f1 repos bs).Nodup := by
  unfold pass1Vocab
  apply (List.perm_insertionSort (fun a b => a ≤ b) _).nodup_iff.mpr
  rw [pass1_eq f1 repos bs hbs]
  exact pass1_langs_nodup f1 repos ⟨[], [], []⟩ List.nodup_nil

/-! ### Dict lookup, primary language, rounding -/

theorem lookupStr_eq_none (lang : String) :
    ∀ (L : List (String × Nat)), lookupStr lang L = none ↔ lang ∉ L.map Prod.fst := by
  intro L
  induction L with
  | nil => simp [lookupStr]
  | cons p rest ih =>
    obtain ⟨l, b⟩ := p
    by_cases h : l = lang
    · subst h
      simp [lookupStr]
    · simp only [lookupStr, if_neg h, ih, List.map_cons, List.mem_cons]
      constructor
      · intro hn hmem
        rcases hmem with heq | hmem
        · exact h heq.symm
        · exact hn hmem
      · intro hn hmem
        exact hn (Or.inr hmem)

theorem lookupStr_of_mem (lang : String) (b : Nat) :
    ∀ (L : List (String × Nat)), (L.map Prod.fst).Nodup → (lang, b) ∈ L →
      lookupStr lang L = some b := by
  intro L
  induction L with
  | nil => intro _ hmem; cases hmem
  | cons p rest ih =>
    intro hnd hmem
    obtain ⟨l, b'⟩ := p
    rw [List.map_cons, List.nodup_cons] at hnd
    rcases List.mem_cons.mp hmem with heq | hmem'
    · cases heq
      simp [lookupStr]
    · have hne : l ≠ lang := by
        intro heq
        subst heq
        exact hnd.1 (List.mem_map.mpr ⟨(l, b), hmem', rfl⟩)
      rw [show lookupStr lang ((l, b') :: rest) = lookupStr lang rest from if_neg hne]
      exact ih hnd.2 hmem'


/-- Python's `max` with a key returns an element whose key is maximal and
which comes before every other maximal element: the list splits around the
returned element, with strictly smaller keys before it and no larger key
after it. -/
theorem primAuxP_split :
    ∀ (rest : List (String × Nat)) (l : String) (b : Nat),
      ∃ pre post,
        (l, b) :: rest = pre ++ primAuxP l b rest :: post ∧
        (∀ p ∈ pre, p.2 < (primAuxP l b rest).2) ∧
        (∀ p ∈ post, p.2 ≤ (primAuxP l b rest).2) := by
  intro rest
  induction rest with
  | nil =>
    intro l b
    exact ⟨[], [], rfl, by simp, by simp⟩
  | cons q rest ih =>
    intro l b
    obtain ⟨l2, b2⟩ := q
    by_cases hgt : b2 > b
    · have hstep : primAuxP l b ((l2, b2) :: rest) = primAuxP l2 b2 rest := by
        simp [primAuxP, hgt]
      obtain ⟨pre', post', heq, hpre, hpost⟩ := ih l2 b2
      have hb2 : b2 ≤ (primAuxP l2 b2 rest).2 := by
        have hmem : (l2, b2) ∈ pre' ++ primAuxP l2 b2 rest :: post' := by
          rw [← heq]
          exact List.mem_cons_self _ _
        rcases List.mem_append.mp hmem with hm | hm
        · exact le_of_lt (hpre _ hm)
        · rcases List.mem_cons.mp hm with heq2 | hm'
          · exact le_of_eq (congrArg Prod.snd heq2)
          · exact hpost _ hm'
      refine ⟨(l, b) :: pre', post', ?_, ?_, ?_⟩
      · rw [hstep, List.cons_append, ← heq]
      · intro p hp
        rw [hstep]
        rcases List.mem_cons.mp hp with rfl | hp'
        · exact lt_of_lt_of_le hgt hb2
        · exact hpre p hp'
      · intro p hp
        rw [hstep]
        exact hpost p hp
    · have hstep : primAuxP l b ((l2, b2) :: rest) = primAuxP l b rest := by
        simp [primAuxP, hgt]
      obtain ⟨pre', post', heq, hpre, hpost⟩ := ih l b
      match pre', heq with
      | [], heq =>
        rw [List.nil_append] at heq
        have hhead : primAuxP l b rest = (l, b) := (List.cons.injEq _ _ _ _ ▸ heq).1.symm
        have hpost2 : rest = post' := ((List.cons.injEq _ _ _ _).mp heq).2
        refine ⟨[], (l2, b2) :: rest, ?_, by simp, ?_⟩
        · rw [hstep, hhead, List.nil_append]
        · intro p hp
          rw [hstep, hhead]
          rcases List.mem_cons.mp hp with rfl | hp'
          · exact le_of_not_lt hgt
          · have := hpost p (hpost2 ▸ hp')
            rw [hhead] at this
            exact this
      | q' :: pre'', heq =>
        have hq' : q' = (l, b) := ((List.cons.injEq _ _ _ _).mp heq).1.symm
        have hrest : rest = pre'' ++ primAuxP l b rest :: post' :=
          ((List.cons.injEq _ _ _ _).mp heq).2
        have hlb : b < (primAuxP l b rest).2 := by
          have hq'mem := hpre q' (List.mem_cons_self _ _)
          rw [hq'] at hq'mem
          exact hq'mem
        refine ⟨(l, b) :: (l2, b2) :: pre'', post', ?_, ?_, ?_⟩
        · rw [hstep]
          simp only [List.cons_append]
          rw [← hrest]
        · intro p hp
          rw [hstep]
          rcases List.mem_cons.mp hp with rfl | hp'
          · exact hlb
          · rcases List.mem_cons.mp hp' with rfl | hp''
            · exact lt_of_le_of_lt (le_of_not_lt hgt) hlb
            · exact hpre p (List.mem_cons_of_mem _ hp'')
        · intro p hp
          rw [hstep]
          exact hpost p hp

/-- Rounding to two decimals moves a value by at most 1/200. -/
theorem round2_abs (q : ℚ) : |round2 q - q| ≤ 1 / 200 := by
  unfold round2
  have h := abs_sub_round (q * 100)
  have h100 : |(round (q * 100) : ℚ) / 100 - q| = |q * 100 - (round (q * 100) : ℚ)| / 100 := by
    rw [abs_sub_comm, ← abs_of_pos (show (0 : ℚ) < 100 by norm_num), ← abs_div]
    congr 1
    field_simp
  rw [h100]
  calc |q * 100 - (round (q * 100) : ℚ)| / 100 ≤ (1 / 2) / 100 := by
        apply div_le_div_of_nonneg_right h (by norm_num)
      _ = 1 / 200 := by norm_num

/-- When the total byte count is zero, every percentage cell is the int 0. -/
theorem pctCell_of_total_zero (L : List (String × Nat)) (hT : totalBytes L = 0)
    (lang : String) : pctCell L lang = .int 0 := by
  unfold pctCell
  match lookupStr lang L with
  | some b => rw [hT]; simp
  | none => rfl

/-- With an all-zero byte map, `max` still returns the first entry. -/
theorem primAuxP_all_zero :
    ∀ (rest : List (String × Nat)) (l : String),
      (∀ p ∈ rest, p.2 = 0) → primAuxP l 0 rest = (l, 0) := by
  intro rest
  induction rest with
  | nil => intro l _; rfl
  | cons q rest ih =>
    intro l hz
    obtain ⟨l2, b2⟩ := q
    have hb2 : b2 = 0 := hz (l2, b2) (List.mem_cons_self _ _)
    subst hb2
    have : primAuxP l 0 ((l2, 0) :: rest) = primAuxP l 0 rest := by
      simp [primAuxP]
    rw [this]
    exact ih l (fun p hp => hz p (List.mem_cons_of_mem _ hp))

/-- An all-zero byte map sums to zero total. -/
theorem totalBytes_all_zero (L : List (String × Nat)) (hz : ∀ p ∈ L, p.2 = 0) :
    totalBytes L = 0 := by
  unfold totalBytes
  apply List.sum_eq_zero
  intro x hx
  obtain ⟨p, hp, rfl⟩ := List.mem_map.mp hx
  exact hz p hp

/-! ### The percentage sum of a row (for the numerical claim) -/

/-- Numeric value of one vocabulary column, with the total passed
explicitly (so it stays fixed while inducting over the map). -/
def pctValT (T : ℚ) (L : List (String × Nat)) (lang : String) : ℚ :=
  match lookupStr lang L with
  | some b => round2 ((b : ℚ) / T * 100)
  | none => 0

theorem lookupStr_cons (lang l : String) (b : Nat) (rest : List (String × Nat)) :
    lookupStr lang ((l, b) :: rest) = if l = lang then some b else lookupStr lang rest :=
  rfl

theorem cellVal_pctCell (L : List (String × Nat)) (lang : String)
    (hT : 0 < totalBytes L) :
    cellVal (pctCell L lang) = pctValT (totalBytes L : ℚ) L lang := by
  cases h : lookupStr lang L with
  | some b => simp [pctCell, pctValT, h, hT, cellVal]
  | none => simp [pctCell, pctValT, h, cellVal]

theorem pctValT_not_mem (T : ℚ) (L : List (String × Nat)) (lang : String)
    (h : lang ∉ L.map Prod.fst) : pctValT T L lang = 0 := by
  unfold pctValT
  rw [(lookupStr_eq_none lang L).mpr h]

/-- Summing the per-column values over a duplicate-free vocabulary that
contains every key of the map gives the sum of the rounded per-language
percentages. -/
theorem sum_pctValT (T : ℚ) :
    ∀ (L : List (String × Nat)) (vocab : List String), vocab.Nodup →
      (L.map Prod.fst).Nodup → (∀ k ∈ L.map Prod.fst, k ∈ vocab) →
      (vocab.map (pctValT T L)).sum
        = (L.map (fun p => round2 ((p.2 : ℚ) / T * 100))).sum := by
  intro L
  induction L with
  | nil =>
    intro vocab _ _ _
    rw [List.map_nil, List.sum_nil]
    apply List.sum_eq_zero
    intro x hx
    obtain ⟨lang, _, rfl⟩ := List.mem_map.mp hx
    rfl
  | cons p L' ih =>
    intro vocab hv hk hsub
    obtain ⟨l, b⟩ := p
    rw [List.map_cons, List.nodup_cons] at hk
    have hlv : l ∈ vocab := hsub l (by simp)
    obtain ⟨va, vb, rfl⟩ := List.append_of_mem hlv
    have hdis := List.disjoint_of_nodup_append hv
    have hnv : (va ++ vb).Nodup ∧ l ∉ va ∧ l ∉ vb := by
      rw [List.nodup_append] at hv ⊢
      obtain ⟨hva, hlvb, hdis2⟩ := hv
      rw [List.nodup_cons] at hlvb
      refine ⟨⟨hva, hlvb.2, ?_⟩, ?_, hlvb.1⟩
      · intro a ha hb2
        exact hdis2 ha (List.mem_cons_of_mem _ hb2)
      · intro hla
        exact hdis hla (List.mem_cons_self _ _)
    have hagree : ∀ v ∈ va ++ vb, pctValT T ((l, b) :: L') v = pctValT T L' v := by
      intro v hv2
      have hvl : v ≠ l := by
        intro rfl2
        subst rfl2
        rcases List.mem_append.mp hv2 with h | h
        · exact hnv.2.1 h
        · exact hnv.2.2 h
      unfold pctValT
      rw [lookupStr_cons, if_neg (fun heq => hvl heq.symm)]
    have hmapa : va.map (pctValT T ((l, b) :: L')) = va.map (pctValT T L') :=
      List.map_congr_left (fun a ha => hagree a (List.mem_append.mpr (Or.inl ha)))
    have hmapb : vb.map (pctValT T ((l, b) :: L')) = vb.map (pctValT T L') :=
      List.map_congr_left (fun a ha => hagree a (List.mem_append.mpr (Or.inr ha)))
    have hsub' : ∀ k ∈ L'.map Prod.fst, k ∈ va ++ vb := by
      intro k hk2
      have hkv : k ∈ va ++ l :: vb := hsub k (List.mem_cons_of_mem _ hk2)
      have hkl : k ≠ l := fun heq => hk.1 (heq ▸ hk2)
      rcases List.mem_append.mp hkv with h | h
      · exact List.mem_append.mpr (Or.inl h)
      · rcases List.mem_cons.mp h with heq | h'
        · exact absurd heq hkl
        · exact List.mem_append.mpr (Or.inr h')
    have hself : pctValT T ((l, b) :: L') l = round2 ((b : ℚ) / T * 100) := by
      unfold pctValT
      rw [lookupStr_cons, if_pos rfl]
    have hLl : pctValT T L' l = 0 :=
      pctValT_not_mem T L' l hk.1
    calc ((va ++ l :: vb).map (pctValT T ((l, b) :: L'))).sum
        = (va.map (pctValT T ((l, b) :: L'))).sum + pctValT T ((l, b) :: L') l
            + (vb.map (pctValT T ((l, b) :: L'))).sum := by
          rw [List.map_append, List.sum_append, List.map_cons, List.sum_cons]
          ring
      _ = (va.map (pctValT T L')).sum + round2 ((b : ℚ) / T * 100)
            + (vb.map (pctValT T L')).sum := by
          rw [hself, hmapa, hmapb]
      _ = ((va ++ vb).map (pctValT T L')).sum + pctValT T L' l
            + round2 ((b : ℚ) / T * 100) := by
          rw [hLl, List.map_append, List.sum_append]
          ring
      _ = (((l, b) :: L').map (fun p => round2 ((p.2 : ℚ) / T * 100))).sum := by
          rw [ih (va ++ vb) hnv.1 hk.2 hsub', List.map_cons, List.sum_cons, hLl, add_zero]
          exact add_comm _ _

theorem sum_map_round2_abs :
    ∀ (l : List ℚ), |(l.map round2).sum - l.sum| ≤ (l.length : ℚ) / 200 := by
  intro l
  induction l with
  | nil => simp
  | cons x xs ih =>
    rw [List.map_cons, List.sum_cons, List.sum_cons]
    calc |round2 x + (xs.map round2).sum - (x + xs.sum)|
        = |(round2 x - x) + ((xs.map round2).sum - xs.sum)| := by
          congr 1
          ring
      _ ≤ |round2 x - x| + |(xs.map round2).sum - xs.sum| := abs_add _ _
      _ ≤ 1 / 200 + (xs.length : ℚ) / 200 := add_le_add (round2_abs x) ih
      _ = ((x :: xs).length : ℚ) / 200 := by
          rw [List.length_cons]
          push_cast
          ring

/-- The exact (unrounded) percentages of one repository sum to 100 when the
total is positive. -/
theorem sum_exact_pct (L : List (String × Nat)) (hT : 0 < totalBytes L) :
    (L.map (fun p => (p.2 : ℚ) / (totalBytes L : ℚ) * 100)).sum = 100 := by
  set T : ℚ := (totalBytes L : ℚ) with hTdef
  have hT0 : T ≠ 0 := by
    rw [hTdef]
    exact_mod_cast Nat.pos_iff_ne_zero.mp hT
  have h1 : (L.map (fun p => (p.2 : ℚ) / T * 100)).sum
      = (L.map (fun p => (p.2 : ℚ) * (100 / T))).sum := by
    congr 1
    apply List.map_congr_left
    intro p _
    ring
  rw [h1, List.sum_map_mul_right]
  have h2 : (L.map (fun p => (p.2 : ℚ))).sum = T := by
    rw [hTdef]
    unfold totalBytes
    rw [Nat.cast_list_sum, List.map_map]
    rfl
  rw [h2]
  field_simp

/-! ### Listing-loop facts -/

theorem events_logReq (st : LState) :
    (logReq st).events = st.events ++ [Ev.request st.page] :=
  rfl

theorem events_retrySt (st : LState) (w : ℤ) :
    (retrySt st w).events = st.events ++ [Ev.request st.page, Ev.sleep w] := by
  simp [retrySt, sleepFor, logReq]

theorem retrySt_page (st : LState) (w : ℤ) : (retrySt st w).page = st.page :=
  rfl

theorem retrySt_clock (st : LState) (w : ℤ) : (retrySt st w).clock = st.clock + w :=
  rfl

theorem retrySt_attempt (st : LState) (w : ℤ) :
    (retrySt st w).attempt = st.attempt + 1 :=
  rfl

theorem runListing_events_extend (net : Nat → Nat → PageOutcome) :
    ∀ (fuel : Nat) (st : LState),
      ∃ rest, ((runListing net fuel st).state).events = st.events ++ rest := by
  intro fuel
  induction fuel with
  | zero =>
    intro st
    exact ⟨[], by simp [runListing, LRes.state]⟩
  | succ n ih =>
    intro st
    cases hnet : net st.page st.attempt with
    | notFound =>
      exact ⟨[.request st.page], by simp [runListing, hnet, LRes.state, logReq]⟩
    | otherErr =>
      exact ⟨[.request st.page], by simp [runListing, hnet, LRes.state, logReq]⟩
    | forbidden reset =>
      obtain ⟨rest', hrest'⟩ := ih (retrySt st (max ((reset : ℤ) - st.clock + 1) 60))
      refine ⟨[.request st.page, .sleep (max ((reset : ℤ) - st.clock + 1) 60)] ++ rest', ?_⟩
      have h : runListing net (n + 1) st
          = runListing net n (retrySt st (max ((reset : ℤ) - st.clock + 1) 60)) := by
        simp [runListing, hnet]
      rw [h, hrest', events_retrySt]
      simp
    | memErr =>
      obtain ⟨rest', hrest'⟩ := ih (retrySt st 60)
      refine ⟨[.request st.page, .sleep 60] ++ rest', ?_⟩
      have h : runListing net (n + 1) st = runListing net n (retrySt st 60) := by
        simp [runListing, hnet]
      rw [h, hrest', events_retrySt]
      simp
    | ok body rem reset =>
      by_cases hbody : body.isEmpty
      · exact ⟨[.request st.page], by simp [runListing, hnet, hbody, LRes.state, logReq]⟩
      · by_cases hrem : rem = 0
        · obtain ⟨rest', hrest'⟩ :=
            ih (sleepFor (advSt st body) (max ((reset : ℤ) - st.clock + 1) 10))
          refine ⟨[.request st.page, .sleep (max ((reset : ℤ) - st.clock + 1) 10)] ++ rest', ?_⟩
          have h : runListing net (n + 1) st
              = runListing net n
                  (sleepFor (advSt st body) (max ((reset : ℤ) - st.clock + 1) 10)) := by
            simp [runListing, hnet, hbody, hrem]
          rw [h, hrest']
          simp [sleepFor, advSt, logReq]
        · obtain ⟨rest', hrest'⟩ := ih (sleepFor (advSt st body) 1)
          refine ⟨[.request st.page, .sleep 1] ++ rest', ?_⟩
          have h : runListing net (n + 1) st
              = runListing net n (sleepFor (advSt st body) 1) := by
            simp [runListing, hnet, hbody, hrem]
          rw [h, hrest']
          simp [sleepFor, advSt, logReq]

/-- Whatever happens afterwards, a (fuelled) round of the listing loop
starts by issuing the request for the current page. -/
theorem runListing_next_request (net : Nat → Nat → PageOutcome)
    (fuel : Nat) (st : LState) :
    ∃ rest, ((runListing net (fuel + 1) st).state).events
      = st.events ++ .request st.page :: rest := by
  cases hnet : net st.page st.attempt with
  | notFound =>
    exact ⟨[], by simp [runListing, hnet, LRes.state, logReq]⟩
  | otherErr =>
    exact ⟨[], by simp [runListing, hnet, LRes.state, logReq]⟩
  | forbidden reset =>
    obtain ⟨rest', hrest'⟩ :=
      runListing_events_extend net fuel (retrySt st (max ((reset : ℤ) - st.clock + 1) 60))
    have h : runListing net (fuel + 1) st
        = runListing net fuel (retrySt st (max ((reset : ℤ) - st.clock + 1) 60)) := by
      simp [runListing, hnet]
    refine ⟨.sleep (max ((reset : ℤ) - st.clock + 1) 60) :: rest', ?_⟩
    rw [h, hrest', events_retrySt]
    simp
  | memErr =>
    obtain ⟨rest', hrest'⟩ := runListing_events_extend net fuel (retrySt st 60)
    have h : runListing net (fuel + 1) st = runListing net fuel (retrySt st 60) := by
      simp [runListing, hnet]
    refine ⟨.sleep 60 :: rest', ?_⟩
    rw [h, hrest', events_retrySt]
    simp
  | ok body rem reset =>
    by_cases hbody : body.isEmpty
    · exact ⟨[], by simp [runListing, hnet, hbody, LRes.state, logReq]⟩
    · by_cases hrem : rem = 0
      · obtain ⟨rest', hrest'⟩ := runListing_events_extend net fuel
          (sleepFor (advSt st body) (max ((reset : ℤ) - st.clock + 1) 10))
        have h : runListing net (fuel + 1) st
            = runListing net fuel
                (sleepFor (advSt st body) (max ((reset : ℤ) - st.clock + 1) 10)) := by
          simp [runListing, hnet, hbody, hrem]
        refine ⟨.sleep (max ((reset : ℤ) - st.clock + 1) 10) :: rest', ?_⟩
        rw [h, hrest']
        simp [sleepFor, advSt, logReq]
      · obtain ⟨rest', hrest'⟩ :=
          runListing_events_extend net fuel (sleepFor (advSt st body) 1)
        have h : runListing net (fuel + 1) st
            = runListing net fuel (sleepFor (advSt st body) 1) := by
          simp [runListing, hnet, hbody, hrem]
        refine ⟨.sleep 1 :: rest', ?_⟩
        rw [h, hrest']
        simp [sleepFor, advSt, logReq]

/-! ### Claim theorems -/

/-- Claim C1: the vocabulary that fixes the report's columns is exactly the
union of language keys returned by the non-failing pass-1 fetches, frozen by
sorting alphabetically before pass 2; every emitted row consists of the 9
fixed cells followed by exactly one cell per vocabulary language (so a
language seen only in pass 2 never adds a column), and a vocabulary language
absent from the row's fetch yields the cell 0. -/
theorem c1_vocabulary_frozen (f1 f2 : Repo → LangOutcome) (repos : List Repo)
    (bs : Nat) (hbs : 1 ≤ bs) :
    (∀ lang, lang ∈ pass1Vocab f1 repos bs ↔
        ∃ r ∈ repos, ∃ L, f1 r = .ok L ∧ lang ∈ L.map Prod.fst)
    ∧ List.Sorted (fun a b => a ≤ b) (pass1Vocab f1 repos bs)
    ∧ (∀ row ∈ pass2Rows f2 (pass1Vocab f1 repos bs) repos bs,
        ∃ r ∈ repos, ∃ L, f2 r = .ok L ∧
          row = fixedCells r L ++ (pass1Vocab f1 repos bs).map (pctCell L))
    ∧ (∀ L : List (String × Nat), ∀ lang ∈ pass1Vocab f1 repos bs,
        lang ∉ L.map Prod.fst → pctCell L lang = .int 0) := by
  refine ⟨fun lang => mem_pass1Vocab f1 repos bs hbs lang,
    pass1Vocab_sorted f1 repos bs, ?_, ?_⟩
  · intro row hrow
    rw [pass2Rows_filterMap _ _ _ _ hbs] at hrow
    obtain ⟨r, hr, hrowOf⟩ := List.mem_filterMap.mp hrow
    refine ⟨r, hr, ?_⟩
    cases hfr : f2 r with
    | ok L =>
      refine ⟨L, rfl, ?_⟩
      unfold rowOf at hrowOf
      rw [hfr] at hrowOf
      cases hrowOf
      rfl
    | err403 x y => unfold rowOf at hrowOf; rw [hfr] at hrowOf; cases hrowOf
    | memErr => unfold rowOf at hrowOf; rw [hfr] at hrowOf; cases hrowOf
    | otherErr => unfold rowOf at hrowOf; rw [hfr] at hrowOf; cases hrowOf
  · intro L lang _ hnot
    unfold pctCell
    rw [(lookupStr_eq_none lang L).mpr hnot]

/-- Claim C3: the Primary Language field of an emitted row is the language
with the maximal byte count of the repository's pass-2 map, ties resolved to
the language that comes first in the platform's native key order; for an
empty pass-2 map it is the string "None". -/
theorem c3_primary_language (f2 : Repo → LangOutcome) (vocab : List String)
    (repos : List Repo) (bs : Nat) (r : Repo) (L : List (String × Nat))
    (hbs : 1 ≤ bs) (hr : r ∈ repos) (hL : f2 r = .ok L) :
    mkRow vocab r L ∈ pass2Rows f2 vocab repos bs
    ∧ (mkRow vocab r L).get? 3 = some (.str (primaryLanguage L))
    ∧ (L = [] → primaryLanguage L = "None")
    ∧ (∀ l0 b0 rest, L = (l0, b0) :: rest →
        ∃ pre bp post, L = pre ++ (primaryLanguage L, bp) :: post
          ∧ (∀ p ∈ pre, p.2 < bp)
          ∧ (∀ p ∈ post, p.2 ≤ bp)
          ∧ (∀ p ∈ L, p.2 ≤ bp)) := by
  refine ⟨?_, rfl, ?_, ?_⟩
  · rw [pass2Rows_filterMap _ _ _ _ hbs]
    apply List.mem_filterMap.mpr
    exact ⟨r, hr, by unfold rowOf; rw [hL]⟩
  · intro hnil
    subst hnil
    rfl
  · intro l0 b0 rest hcons
    subst hcons
    obtain ⟨pre, post, heq, hpre, hpost⟩ := primAuxP_split rest l0 b0
    refine ⟨pre, (primAuxP l0 b0 rest).2, post, ?_, hpre, hpost, ?_⟩
    · show (l0, b0) :: rest
        = pre ++ ((primAuxP l0 b0 rest).1, (primAuxP l0 b0 rest).2) :: post
      simpa using heq
    · intro p hp
      rw [heq] at hp
      rcases List.mem_append.mp hp with h | h
      · exact le_of_lt (hpre p h)
      · rcases List.mem_cons.mp h with rfl | h'
        · exact le_rfl
        · exact hpost p h'

/-- Claim C4: a report row is emitted for exactly the repositories whose
pass-2 fetch succeeds (a pass-2 failure yields no row at all), independently
of pass-1 outcomes: the rows are the filter-map of the listed sequence by
the pass-2 oracle.  An emitted row carries one cell per (already frozen)
vocabulary language: 0 for a vocabulary language absent from the fetch, the
rounded percentage for a recognized one, and languages outside the
vocabulary contribute nothing. -/
theorem c4_row_iff_pass2_success (f2 : Repo → LangOutcome) (vocab : List String)
    (repos : List Repo) (bs : Nat) (hbs : 1 ≤ bs) :
    pass2Rows f2 vocab repos bs = repos.filterMap (rowOf f2 vocab)
    ∧ (∀ r ∈ repos, ∀ L, f2 r = .ok L →
        mkRow vocab r L ∈ pass2Rows f2 vocab repos bs
        ∧ (mkRow vocab r L).drop 9 = vocab.map (pctCell L)
        ∧ (∀ lang ∈ vocab, lang ∉ L.map Prod.fst → pctCell L lang = .int 0)
        ∧ ((L.map Prod.fst).Nodup → ∀ p ∈ L, p.1 ∈ vocab →
            pctCell L p.1 = if 0 < totalBytes L then
              .float (round2 ((p.2 : ℚ) / (totalBytes L : ℚ) * 100))
            else .int 0)) := by
  refine ⟨pass2Rows_filterMap f2 vocab repos bs hbs, ?_⟩
  intro r hr L hL
  refine ⟨?_, ?_, ?_, ?_⟩
  · rw [pass2Rows_filterMap _ _ _ _ hbs]
    apply List.mem_filterMap.mpr
    exact ⟨r, hr, by unfold rowOf; rw [hL]⟩
  · show (fixedCells r L ++ vocab.map (pctCell L)).drop 9 = vocab.map (pctCell L)
    rw [show (9 : Nat) = (fixedCells r L).length from rfl, List.drop_left]
  · intro lang _ hnot
    unfold pctCell
    rw [(lookupStr_eq_none lang L).mpr hnot]
  · intro hnd p hp _
    have hlook : lookupStr p.1 L = some p.2 :=
      lookupStr_of_mem p.1 p.2 L hnd (by simpa using hp)
    unfold pctCell
    rw [hlook]

/-- Claim C2 (amended): each percentage equals `round(bytes/T * 100, 2)`
when `T > 0` and 0 when `T = 0`; and — provided every language of the
repository's pass-2 map is in the frozen vocabulary — the row's percentage
columns sum to 0 when `T = 0` and to 100 within the accumulated two-decimal
rounding tolerance (1/200 per language) when `T > 0`.  (The vocabulary
proviso is what the original claim is missing: a pass-2-only language is
dropped from the row, removing its share from the sum.) -/
theorem c2_percentage_sum (f2 : Repo → LangOutcome) (vocab : List String)
    (repos : List Repo) (bs : Nat) (r : Repo) (L : List (String × Nat))
    (hbs : 1 ≤ bs) (hr : r ∈ repos) (hL : f2 r = .ok L)
    (hv : vocab.Nodup) (hk : (L.map Prod.fst).Nodup)
    (hsub : ∀ k ∈ L.map Prod.fst, k ∈ vocab) :
    mkRow vocab r L ∈ pass2Rows f2 vocab repos bs
    ∧ (∀ p ∈ L, pctCell L p.1 = if 0 < totalBytes L then
        .float (round2 ((p.2 : ℚ) / (totalBytes L : ℚ) * 100)) else .int 0)
    ∧ (totalBytes L = 0 →
        (((mkRow vocab r L).drop 9).map cellVal).sum = 0)
    ∧ (0 < totalBytes L →
        |(((mkRow vocab r L).drop 9).map cellVal).sum - 100| ≤ (L.length : ℚ) / 200) := by
  have hdrop : (mkRow vocab r L).drop 9 = vocab.map (pctCell L) := by
    show (fixedCells r L ++ vocab.map (pctCell L)).drop 9 = vocab.map (pctCell L)
    rw [show (9 : Nat) = (fixedCells r L).length from rfl, List.drop_left]
  refine ⟨?_, ?_, ?_, ?_⟩
  · rw [pass2Rows_filterMap _ _ _ _ hbs]
    apply List.mem_filterMap.mpr
    exact ⟨r, hr, by unfold rowOf; rw [hL]⟩
  · intro p hp
    have hlook : lookupStr p.1 L = some p.2 :=
      lookupStr_of_mem p.1 p.2 L hk hp
    unfold pctCell
    rw [hlook]
  · intro hT0
    rw [hdrop]
    apply List.sum_eq_zero
    intro x hx
    obtain ⟨c, hc, rfl⟩ := List.mem_map.mp hx
    obtain ⟨lang, _, rfl⟩ := List.mem_map.mp hc
    rw [pctCell_of_total_zero L hT0 lang]
    rfl
  · intro hT
    rw [hdrop, List.map_map]
    have h1 : vocab.map (cellVal ∘ pctCell L) = vocab.map (pctValT (totalBytes L : ℚ) L) :=
      List.map_congr_left (fun lang _ => cellVal_pctCell L lang hT)
    rw [h1, sum_pctValT (totalBytes L : ℚ) L vocab hv hk hsub]
    have h2 : L.map (fun p => round2 ((p.2 : ℚ) / (totalBytes L : ℚ) * 100))
        = (L.map (fun p => (p.2 : ℚ) / (totalBytes L : ℚ) * 100)).map round2 := by
      rw [List.map_map]
      rfl
    rw [h2]
    have h3 := sum_map_round2_abs (L.map (fun p => (p.2 : ℚ) / (totalBytes L : ℚ) * 100))
    rw [sum_exact_pct L hT, List.length_map] at h3
    exact h3

/-- Claim C5 (amended): a listing-page request that fails with status 403
makes the script sleep `max(reset - now + 1, 60)` seconds — at least until
the reset time plus one second, and at least 60 seconds — and then reissue
the identical request (same page, hence same URL and parameters); the
10-second minimum of the source belongs to the preemptive pause after a
successful listing page whose remaining quota is 0, not to any retry, and a
per-repository language fetch failing with 403 is never retried at all (it
is logged and skipped; see the counterexample for that half). -/
theorem c5_listing_403_retry (net : Nat → Nat → PageOutcome) (st : LState)
    (fuel : Nat) (reset : Nat)
    (h : net st.page st.attempt = .forbidden reset) :
    60 ≤ max ((reset : ℤ) - st.clock + 1) 60
    ∧ (reset : ℤ) - st.clock + 1 ≤ max ((reset : ℤ) - st.clock + 1) 60
    ∧ runListing net (fuel + 1) st
        = runListing net fuel (retrySt st (max ((reset : ℤ) - st.clock + 1) 60))
    ∧ (retrySt st (max ((reset : ℤ) - st.clock + 1) 60)).page = st.page
    ∧ (retrySt st (max ((reset : ℤ) - st.clock + 1) 60)).clock
        = st.clock + max ((reset : ℤ) - st.clock + 1) 60
    ∧ (retrySt st (max ((reset : ℤ) - st.clock + 1) 60)).events
        = st.events ++ [.request st.page, .sleep (max ((reset : ℤ) - st.clock + 1) 60)]
    ∧ ∃ rest, ((runListing net (fuel + 1 + 1) st).state).events
        = st.events ++ [.request st.page,
            .sleep (max ((reset : ℤ) - st.clock + 1) 60), .request st.page] ++ rest := by
  have hstep : ∀ g : Nat, runListing net (g + 1) st
      = runListing net g (retrySt st (max ((reset : ℤ) - st.clock + 1) 60)) := by
    intro g
    simp [runListing, h]
  refine ⟨le_max_right _ _, le_max_left _ _, hstep fuel, retrySt_page st _,
    retrySt_clock st _, events_retrySt st _, ?_⟩
  obtain ⟨rest, hrest⟩ :=
    runListing_next_request net fuel (retrySt st (max ((reset : ℤ) - st.clock + 1) 60))
  refine ⟨rest, ?_⟩
  rw [hstep (fuel + 1), hrest, events_retrySt, retrySt_page]
  simp

/-- Claim C6: if the listing phase aborts (organization not found, or an
unrecoverable transport error while listing), the run produces no output at
all — no file, no header, no rows; the output is only created after listing
completes. -/
theorem c6_abort_no_output (net : Nat → Nat → PageOutcome)
    (f1 f2 : Repo → LangOutcome) (bs fuel : Nat) (c0 : ℤ)
    (nf : Bool) (stf : LState)
    (h : runListing net fuel (initState c0) = .aborted nf stf) :
    get_github_repo_languages net f1 f2 bs fuel c0 = none := by
  unfold get_github_repo_languages
  rw [h]

/-- Claim C8 (amended): a repository whose pass-2 fetch returns a non-empty
map in which every byte count is 0 gets a row with 0 in every percentage
column, but its Primary Language is the first language of the map in native
key order — not "None" (the `if languages` guard in the source only tests
emptiness of the dict, and `max` over all-equal keys returns the first
entry). -/
theorem c8_zero_bytes_row (f2 : Repo → LangOutcome) (vocab : List String)
    (repos : List Repo) (bs : Nat) (r : Repo)
    (l : String) (b : Nat) (rest : List (String × Nat))
    (hbs : 1 ≤ bs) (hr : r ∈ repos) (hL : f2 r = .ok ((l, b) :: rest))
    (hz : ∀ p ∈ (l, b) :: rest, p.2 = 0) :
    mkRow vocab r ((l, b) :: rest) ∈ pass2Rows f2 vocab repos bs
    ∧ (mkRow vocab r ((l, b) :: rest)).get? 3 = some (.str l)
    ∧ (∀ c ∈ (mkRow vocab r ((l, b) :: rest)).drop 9, c = .int 0) := by
  have hb : b = 0 := hz (l, b) (List.mem_cons_self _ _)
  subst hb
  have hprim : primaryLanguage ((l, 0) :: rest) = l := by
    show (primAuxP l 0 rest).1 = l
    rw [primAuxP_all_zero rest l (fun p hp => hz p (List.mem_cons_of_mem _ hp))]
  have hT : totalBytes ((l, 0) :: rest) = 0 := totalBytes_all_zero _ hz
  refine ⟨?_, ?_, ?_⟩
  · rw [pass2Rows_filterMap _ _ _ _ hbs]
    apply List.mem_filterMap.mpr
    exact ⟨r, hr, by unfold rowOf; rw [hL]⟩
  · show some (Cell.str (primaryLanguage ((l, 0) :: rest))) = some (.str l)
    rw [hprim]
  · intro c hc
    have hdrop : (mkRow vocab r ((l, 0) :: rest)).drop 9
        = vocab.map (pctCell ((l, 0) :: rest)) := by
      show (fixedCells r _ ++ vocab.map (pctCell _)).drop 9 = vocab.map (pctCell _)
      rw [show (9 : Nat) = (fixedCells r ((l, 0) :: rest)).length from rfl, List.drop_left]
    rw [hdrop] at hc
    obtain ⟨lang, _, rfl⟩ := List.mem_map.mp hc
    exact pctCell_of_total_zero _ hT lang

/-- Claim C9: if the very first listing page is an empty collection, the run
still completes and produces an output consisting of exactly the header with
the 9 fixed columns and no data rows. -/
theorem c9_empty_org (net : Nat → Nat → PageOutcome) (f1 f2 : Repo → LangOutcome)
    (bs fuel : Nat) (c0 : ℤ) (rem reset : Nat)
    (hnet : net 1 0 = .ok [] rem reset) :
    get_github_repo_languages net f1 f2 bs (fuel + 1) c0
      = some ⟨["Repository", "URL", "Description", "Primary Language",
               "Created At", "Updated At", "Stars", "Forks", "Private"], []⟩ := by
  have hlist : runListing net (fuel + 1) (initState c0) = .done (logReq (initState c0)) := by
    simp [runListing, initState, hnet]
  unfold get_github_repo_languages
  rw [hlist]
  rfl

/-- Claim C10: with the listing outcome, the per-repository fetch outcomes
and the clock fixed, the produced report — frozen vocabulary, header, rows,
their values and their order — is the same for every positive batch size;
batching only affects flushing and garbage collection, which are not
observable in the output. -/
theorem c10_batch_size_invariance (net : Nat → Nat → PageOutcome)
    (f1 f2 : Repo → LangOutcome) (bs bs' fuel : Nat) (c0 : ℤ)
    (hbs : 1 ≤ bs) (hbs' : 1 ≤ bs') :
    get_github_repo_languages net f1 f2 bs fuel c0
      = get_github_repo_languages net f1 f2 bs' fuel c0 := by
  unfold get_github_repo_languages
  cases h : runListing net fuel (initState c0) with
  | done st =>
    have hv : pass1Vocab f1 st.repos bs = pass1Vocab f1 st.repos bs' := by
      unfold pass1Vocab
      rw [pass1_eq _ _ _ hbs, pass1_eq _ _ _ hbs']
    show some (Report.mk (headerRow (pass1Vocab f1 st.repos bs))
        (pass2Rows f2 (pass1Vocab f1 st.repos bs) st.repos bs))
      = some (Report.mk (headerRow (pass1Vocab f1 st.repos bs'))
          (pass2Rows f2 (pass1Vocab f1 st.repos bs') st.repos bs'))
    rw [pass2Rows_filterMap _ _ _ _ hbs, pass2Rows_filterMap _ _ _ _ hbs', hv]
  | aborted nf stf => rfl
  | outOfFuel stf => rfl

/-- Every percentage cell is either the int 0 or a float that is an integer
multiple of 1/100. -/
theorem pctCell_shape (L : List (String × Nat)) (lang : String) :
    pctCell L lang = .int 0 ∨ ∃ k : ℤ, pctCell L lang = .float ((k : ℚ) / 100) := by
  unfold pctCell
  cases hlook : lookupStr lang L with
  | none => exact Or.inl rfl
  | some b =>
    by_cases hT : 0 < totalBytes L
    · refine Or.inr ⟨round ((b : ℚ) / (totalBytes L : ℚ) * 100 * 100), ?_⟩
      show (if 0 < totalBytes L then
          Cell.float (round2 ((b : ℚ) / (totalBytes L : ℚ) * 100)) else Cell.int 0) = _
      rw [if_pos hT]
      rfl
    · refine Or.inl ?_
      show (if 0 < totalBytes L then
          Cell.float (round2 ((b : ℚ) / (totalBytes L : ℚ) * 100)) else Cell.int 0) = _
      rw [if_neg hT]

/-- Claim C7 (amended): percentage cells hold values with at most two
decimal places (the int 0 default, or a float that is an integer multiple of
1/100), but they are written with Python's default `str()` rendering, which
does not pad: the absent-language default renders "0" and a whole-number
share like 100 renders "100.0" — neither has exactly two decimal places. -/
theorem c7_default_number_rendering (f2 : Repo → LangOutcome) (vocab : List String)
    (repos : List Repo) (bs : Nat) (hbs : 1 ≤ bs) :
    (∀ row ∈ pass2Rows f2 vocab repos bs, ∀ c ∈ row.drop 9,
      c = .int 0 ∨ ∃ k : ℤ, c = .float ((k : ℚ) / 100))
    ∧ renderCell (.int 0) = "0"
    ∧ renderCell (.float 100) = "100.0"
    ∧ hasTwoDecimals (renderCell (.int 0)) = false
    ∧ hasTwoDecimals (renderCell (.float 100)) = false := by
  have h100 : renderCell (.float 100) = "100.0" := by
    show pyFloatStr 100 = "100.0"
    norm_num [pyFloatStr]
    decide
  refine ⟨?_, rfl, h100, by decide, ?_⟩
  · intro row hrow c hc
    rw [pass2Rows_filterMap _ _ _ _ hbs] at hrow
    obtain ⟨r, _, hrowOf⟩ := List.mem_filterMap.mp hrow
    have hL : ∃ L, f2 r = .ok L ∧ row = mkRow vocab r L := by
      cases hfr : f2 r with
      | ok L =>
        refine ⟨L, rfl, ?_⟩
        unfold rowOf at hrowOf
        rw [hfr] at hrowOf
        cases hrowOf
        rfl
      | err403 x y => unfold rowOf at hrowOf; rw [hfr] at hrowOf; cases hrowOf
      | memErr => unfold rowOf at hrowOf; rw [hfr] at hrowOf; cases hrowOf
      | otherErr => unfold rowOf at hrowOf; rw [hfr] at hrowOf; cases hrowOf
    obtain ⟨L, _, rfl⟩ := hL
    have hdrop : (mkRow vocab r L).drop 9 = vocab.map (pctCell L) := by
      show (fixedCells r L ++ vocab.map (pctCell L)).drop 9 = vocab.map (pctCell L)
      rw [show (9 : Nat) = (fixedCells r L).length from rfl, List.drop_left]
    rw [hdrop] at hc
    obtain ⟨lang, _, rfl⟩ := List.mem_map.mp hc
    exact pctCell_shape L lang
  · rw [h100]
    decide

/-! ### Concrete scenarios -/

def repoA : Repo :=
  ⟨"A", "https://api.example.test/repos/acme/A/languages",
   "https://example.test/acme/A", "demo repo A", "2020-01-01T00:00:00Z",
   "2020-06-01T00:00:00Z", 10, 2, false⟩

def repoB : Repo :=
  ⟨"B", "https://api.example.test/repos/acme/B/languages",
   "https://example.test/acme/B", "demo repo B", "2021-01-01T00:00:00Z",
   "2021-06-01T00:00:00Z", 3, 1, true⟩

/-- A listing oracle: one page with repositories A and B, then the empty
page. -/
def netAB : Nat → Nat → PageOutcome := fun p _ =>
  if p = 1 then .ok [repoA, repoB] 50 0 else .ok [] 50 0

/-- A listing oracle: one page with repository A only, then the empty page. -/
def netA : Nat → Nat → PageOutcome := fun p _ =>
  if p = 1 then .ok [repoA] 50 0 else .ok [] 50 0

/-- A listing oracle for a missing organization: every request is a 404. -/
def net404 : Nat → Nat → PageOutcome := fun _ _ => .notFound

/-- A listing oracle for an organization with no repositories. -/
def netEmpty : Nat → Nat → PageOutcome := fun _ _ => .ok [] 5 0

/-- A listing oracle whose first attempt at each page is rate-limited. -/
def netF403 : Nat → Nat → PageOutcome := fun _ a =>
  if a = 0 then .forbidden 1000 else .ok [] 50 0

/-- The spec's end-to-end example: A has Go 800 / HTML 200, B has Go 500. -/
def fAcme : Repo → LangOutcome := fun r =>
  if r.name = "A" then .ok [("Go", 800), ("HTML", 200)] else .ok [("Go", 500)]

/-- Pass-1 oracle where B's fetch fails. -/
def f1C2 : Repo → LangOutcome := fun r =>
  if r.name = "A" then .ok [("Go", 500)] else .otherErr

/-- Pass-2 oracle where B's fetch succeeds and reveals a language (Zq) that
pass 1 never saw. -/
def f2C2 : Repo → LangOutcome := fun r =>
  if r.name = "A" then .ok [("Go", 500)] else .ok [("Go", 500), ("Zq", 500)]

/-- A fetch oracle reporting one language with zero bytes. -/
def fBin : Repo → LangOutcome := fun _ => .ok [("Bin", 0)]

/-- A fetch oracle that always fails with 403, remaining quota 0. -/
def f403 : Repo → LangOutcome := fun _ => .err403 0 1000

/-- A fetch oracle that always succeeds with Go 500. -/
def fGo : Repo → LangOutcome := fun _ => .ok [("Go", 500)]

/-! ### Counterexamples for the corrected claims -/

/-- Claim C2 is false as stated: in a run where B's pass-1 fetch fails but
its pass-2 fetch succeeds with map {Go: 500, Zq: 500} (total 1000 > 0,
non-empty), the frozen vocabulary is just [Go], so B's emitted row has
percentage columns summing to 50 — neither 0 nor anywhere near 100. -/
theorem c2_counterexample :
    f1C2 repoB = .otherErr
    ∧ f2C2 repoB = .ok [("Go", 500), ("Zq", 500)]
    ∧ totalBytes [("Go", 500), ("Zq", 500)] = 1000
    ∧ ((get_github_repo_languages netAB f1C2 f2C2 10 5 0).map
        (fun rpt => rpt.rows.map (fun row => ((row.drop 9).map cellVal).sum)))
      = some [100, 50]
    ∧ ¬((50 : ℚ) = 0 ∨ |(50 : ℚ) - 100| ≤ 1) := by
  have h1 : get_github_repo_languages netAB f1C2 f2C2 10 5 0
      = some ⟨headerRow ["Go"],
          [mkRow ["Go"] repoA [("Go", 500)],
           mkRow ["Go"] repoB [("Go", 500), ("Zq", 500)]]⟩ := by
    have hlist : runListing netAB 5 (initState 0)
        = .done ⟨[repoA, repoB], 2, 0, 1, [.request 1, .sleep 1, .request 2]⟩ := by
      decide
    unfold get_github_repo_languages
    rw [hlist]
    have hv : pass1Vocab f1C2 [repoA, repoB] 10 = ["Go"] := by decide
    show some (Report.mk (headerRow (pass1Vocab f1C2 [repoA, repoB] 10))
        (pass2Rows f2C2 (pass1Vocab f1C2 [repoA, repoB] 10) [repoA, repoB] 10)) = _
    rw [hv]
    rfl
  have hA : (((mkRow ["Go"] repoA [("Go", 500)]).drop 9).map cellVal).sum = [(100 : ℚ)].sum := by
    have h : ((mkRow ["Go"] repoA [("Go", 500)]).drop 9).map cellVal
        = [round2 ((500 : ℚ) / 500 * 100)] := rfl
    rw [h, List.sum_singleton, List.sum_singleton]
    norm_num [round2, round_eq]
  have hB : (((mkRow ["Go"] repoB [("Go", 500), ("Zq", 500)]).drop 9).map cellVal).sum
      = [(50 : ℚ)].sum := by
    have h : ((mkRow ["Go"] repoB [("Go", 500), ("Zq", 500)]).drop 9).map cellVal
        = [round2 ((500 : ℚ) / 1000 * 100)] := rfl
    rw [h, List.sum_singleton, List.sum_singleton]
    norm_num [round2, round_eq]
  rw [List.sum_singleton] at hA hB
  refine ⟨rfl, rfl, rfl, ?_, by norm_num⟩
  rw [h1]
  show some [(((mkRow ["Go"] repoA [("Go", 500)]).drop 9).map cellVal).sum,
      (((mkRow ["Go"] repoB [("Go", 500), ("Zq", 500)]).drop 9).map cellVal).sum]
    = some [100, 50]
  rw [hA, hB]

/-- Claim C5 is false as stated for per-repository language fetches: when a
pass-1 language fetch fails with status 403 and remaining quota 0, the
script issues exactly one request to that repository's URL, performs no
sleep at all, and moves on (the repository simply contributes no language) —
it does not sleep ≥ 10 s and retry until success.  Pass 2 behaves the same
way: the repository gets no row. -/
theorem c5_counterexample :
    f403 repoA = .err403 0 1000
    ∧ (pass1 f403 [repoA] 10).requests = [repoA.languages_url]
    ∧ (pass1 f403 [repoA] 10).sleeps = []
    ∧ (pass1 f403 [repoA] 10).langs = []
    ∧ pass2Rows f403 [] [repoA] 10 = [] := by
  refine ⟨rfl, rfl, rfl, rfl, rfl⟩

/-- Claim C7 is false as stated: on the spec's own end-to-end example
(A = {Go: 800, HTML: 200}, B = {Go: 500}), the percentage cells of the
output render as "80.0", "20.0", "100.0" and "0" — Python's default float
and int rendering — and neither "100.0" nor "0" has exactly two decimal
places. -/
theorem c7_counterexample :
    ((get_github_repo_languages netAB fAcme fAcme 10 5 0).map
        (fun rpt => rpt.rows.map (fun row => (row.drop 9).map renderCell)))
      = some [["80.0", "20.0"], ["100.0", "0"]]
    ∧ hasTwoDecimals "100.0" = false
    ∧ hasTwoDecimals "0" = false := by
  have h1 : get_github_repo_languages netAB fAcme fAcme 10 5 0
      = some ⟨headerRow ["Go", "HTML"],
          [mkRow ["Go", "HTML"] repoA [("Go", 800), ("HTML", 200)],
           mkRow ["Go", "HTML"] repoB [("Go", 500)]]⟩ := by
    have hlist : runListing netAB 5 (initState 0)
        = .done ⟨[repoA, repoB], 2, 0, 1, [.request 1, .sleep 1, .request 2]⟩ := by
      decide
    unfold get_github_repo_languages
    rw [hlist]
    have hv : pass1Vocab fAcme [repoA, repoB] 10 = ["Go", "HTML"] := by
      have hlangs : (pass1 fAcme [repoA, repoB] 10).langs = ["Go", "HTML"] := by decide
      unfold pass1Vocab
      rw [hlangs]
      simp [List.insertionSort, List.orderedInsert]
      decide
    show some (Report.mk (headerRow (pass1Vocab fAcme [repoA, repoB] 10))
        (pass2Rows fAcme (pass1Vocab fAcme [repoA, repoB] 10) [repoA, repoB] 10)) = _
    rw [hv]
    rfl
  have hGo80 : renderCell (pctCell [("Go", 800), ("HTML", 200)] "Go") = "80.0" := by
    show pyFloatStr (round2 ((800 : ℚ) / 1000 * 100)) = "80.0"
    have h : round2 ((800 : ℚ) / 1000 * 100) = 80 := by norm_num [round2, round_eq]
    rw [h]
    norm_num [pyFloatStr]
    decide
  have hHTML20 : renderCell (pctCell [("Go", 800), ("HTML", 200)] "HTML") = "20.0" := by
    show pyFloatStr (round2 ((200 : ℚ) / 1000 * 100)) = "20.0"
    have h : round2 ((200 : ℚ) / 1000 * 100) = 20 := by norm_num [round2, round_eq]
    rw [h]
    norm_num [pyFloatStr]
    decide
  have hGo100 : renderCell (pctCell [("Go", 500)] "Go") = "100.0" := by
    show pyFloatStr (round2 ((500 : ℚ) / 500 * 100)) = "100.0"
    have h : round2 ((500 : ℚ) / 500 * 100) = 100 := by norm_num [round2, round_eq]
    rw [h]
    norm_num [pyFloatStr]
    decide
  have hHTML0 : renderCell (pctCell [("Go", 500)] "HTML") = "0" := rfl
  refine ⟨?_, by decide, by decide⟩
  rw [h1]
  show some [[renderCell (pctCell [("Go", 800), ("HTML", 200)] "Go"),
        renderCell (pctCell [("Go", 800), ("HTML", 200)] "HTML")],
      [renderCell (pctCell [("Go", 500)] "Go"),
        renderCell (pctCell [("Go", 500)] "HTML")]]
    = some [["80.0", "20.0"], ["100.0", "0"]]
  rw [hGo80, hHTML20, hGo100, hHTML0]

/-- Claim C8 is false as stated: a repository whose pass-2 map is the
non-empty all-zero {Bin: 0} gets 0 in its percentage column as claimed, but
its Primary Language is "Bin" — the first (here only) key — not "None",
because the source's `if languages` guard only tests emptiness of the dict. -/
theorem c8_counterexample :
    fBin repoA = .ok [("Bin", 0)]
    ∧ ((get_github_repo_languages netA fBin fBin 10 5 0).map
        (fun rpt => rpt.rows.map (fun row => row.get? 3)))
      = some [some (Cell.str "Bin")]
    ∧ ((get_github_repo_languages netA fBin fBin 10 5 0).map
        (fun rpt => rpt.rows.map (fun row => row.drop 9)))
      = some [[Cell.int 0]]
    ∧ Cell.str "Bin" ≠ Cell.str "None" := by
  refine ⟨rfl, ?_, ?_, by decide⟩ <;> decide

/-! ### Witnesses -/

theorem c1_witness :
    (∀ lang, lang ∈ pass1Vocab fAcme [repoA, repoB] 1 ↔
        ∃ r ∈ [repoA, repoB], ∃ L, fAcme r = .ok L ∧ lang ∈ L.map Prod.fst)
    ∧ List.Sorted (fun a b => a ≤ b) (pass1Vocab fAcme [repoA, repoB] 1)
    ∧ (∀ row ∈ pass2Rows fAcme (pass1Vocab fAcme [repoA, repoB] 1) [repoA, repoB] 1,
        ∃ r ∈ [repoA, repoB], ∃ L, fAcme r = .ok L ∧
          row = fixedCells r L ++ (pass1Vocab fAcme [repoA, repoB] 1).map (pctCell L))
    ∧ (∀ L : List (String × Nat), ∀ lang ∈ pass1Vocab fAcme [repoA, repoB] 1,
        lang ∉ L.map Prod.fst → pctCell L lang = .int 0) :=
  c1_vocabulary_frozen fAcme fAcme [repoA, repoB] 1 (by decide)

theorem c2_witness :
    mkRow ["Go"] repoA [("Go", 500)] ∈ pass2Rows fGo ["Go"] [repoA] 1
    ∧ (∀ p ∈ [(("Go" : String), (500 : Nat))],
        pctCell [("Go", 500)] p.1 = if 0 < totalBytes [("Go", 500)] then
          .float (round2 ((p.2 : ℚ) / (totalBytes [("Go", 500)] : ℚ) * 100)) else .int 0)
    ∧ (totalBytes [("Go", 500)] = 0 →
        (((mkRow ["Go"] repoA [("Go", 500)]).drop 9).map cellVal).sum = 0)
    ∧ (0 < totalBytes [("Go", 500)] →
        |(((mkRow ["Go"] repoA [("Go", 500)]).drop 9).map cellVal).sum - 100|
          ≤ (([(("Go" : String), (500 : Nat))].length : ℚ)) / 200) :=
  c2_percentage_sum fGo ["Go"] [repoA] 1 repoA [("Go", 500)]
    (by decide) (by decide) rfl (by decide) (by decide) (by decide)

theorem c3_witness :
    mkRow ["Go", "HTML"] repoA [("Go", 800), ("HTML", 200)]
        ∈ pass2Rows fAcme ["Go", "HTML"] [repoA] 1
    ∧ (mkRow ["Go", "HTML"] repoA [("Go", 800), ("HTML", 200)]).get? 3
        = some (.str (primaryLanguage [("Go", 800), ("HTML", 200)]))
    ∧ ([(("Go" : String), (800 : Nat)), ("HTML", 200)] = [] →
        primaryLanguage [("Go", 800), ("HTML", 200)] = "None")
    ∧ (∀ l0 b0 rest, [(("Go" : String), (800 : Nat)), ("HTML", 200)] = (l0, b0) :: rest →
        ∃ pre bp post,
          [(("Go" : String), (800 : Nat)), ("HTML", 200)]
            = pre ++ (primaryLanguage [("Go", 800), ("HTML", 200)], bp) :: post
          ∧ (∀ p ∈ pre, p.2 < bp)
          ∧ (∀ p ∈ post, p.2 ≤ bp)
          ∧ (∀ p ∈ [(("Go" : String), (800 : Nat)), ("HTML", 200)], p.2 ≤ bp)) :=
  c3_primary_language fAcme ["Go", "HTML"] [repoA] 1 repoA
    [("Go", 800), ("HTML", 200)] (by decide) (by decide) (by decide)

theorem c4_witness :
    pass2Rows fAcme ["Go", "HTML"] [repoA, repoB] 1
      = [repoA, repoB].filterMap (rowOf fAcme ["Go", "HTML"])
    ∧ (∀ r ∈ [repoA, repoB], ∀ L, fAcme r = .ok L →
        mkRow ["Go", "HTML"] r L ∈ pass2Rows fAcme ["Go", "HTML"] [repoA, repoB] 1
        ∧ (mkRow ["Go", "HTML"] r L).drop 9 = ["Go", "HTML"].map (pctCell L)
        ∧ (∀ lang ∈ ["Go", "HTML"], lang ∉ L.map Prod.fst → pctCell L lang = .int 0)
        ∧ ((L.map Prod.fst).Nodup → ∀ p ∈ L, p.1 ∈ ["Go", "HTML"] →
            pctCell L p.1 = if 0 < totalBytes L then
              .float (round2 ((p.2 : ℚ) / (totalBytes L : ℚ) * 100))
            else .int 0)) :=
  c4_row_iff_pass2_success fAcme ["Go", "HTML"] [repoA, repoB] 1 (by decide)

theorem c5_witness :
    60 ≤ max ((1000 : ℤ) - (initState 0).clock + 1) 60
    ∧ (1000 : ℤ) - (initState 0).clock + 1
        ≤ max ((1000 : ℤ) - (initState 0).clock + 1) 60
    ∧ runListing netF403 (1 + 1) (initState 0)
        = runListing netF403 1
            (retrySt (initState 0) (max ((1000 : ℤ) - (initState 0).clock + 1) 60))
    ∧ (retrySt (initState 0) (max ((1000 : ℤ) - (initState 0).clock + 1) 60)).page
        = (initState 0).page
    ∧ (retrySt (initState 0) (max ((1000 : ℤ) - (initState 0).clock + 1) 60)).clock
        = (initState 0).clock + max ((1000 : ℤ) - (initState 0).clock + 1) 60
    ∧ (retrySt (initState 0) (max ((1000 : ℤ) - (initState 0).clock + 1) 60)).events
        = (initState 0).events ++ [.request (initState 0).page,
            .sleep (max ((1000 : ℤ) - (initState 0).clock + 1) 60)]
    ∧ ∃ rest, ((runListing netF403 (1 + 1 + 1) (initState 0)).state).events
        = (initState 0).events ++ [.request (initState 0).page,
            .sleep (max ((1000 : ℤ) - (initState 0).clock + 1) 60),
            .request (initState 0).page] ++ rest :=
  c5_listing_403_retry netF403 (initState 0) 1 1000 (by decide)

theorem c6_witness :
    get_github_repo_languages net404 fAcme fAcme 10 1 0 = none :=
  c6_abort_no_output net404 fAcme fAcme 10 1 0 true
    ⟨[], 1, 0, 0, [.request 1]⟩ (by decide)

theorem c7_witness :
    (∀ row ∈ pass2Rows fAcme ["Go", "HTML"] [repoA, repoB] 1, ∀ c ∈ row.drop 9,
      c = .int 0 ∨ ∃ k : ℤ, c = .float ((k : ℚ) / 100))
    ∧ renderCell (.int 0) = "0"
    ∧ renderCell (.float 100) = "100.0"
    ∧ hasTwoDecimals (renderCell (.int 0)) = false
    ∧ hasTwoDecimals (renderCell (.float 100)) = false :=
  c7_default_number_rendering fAcme ["Go", "HTML"] [repoA, repoB] 1 (by decide)

theorem c8_witness :
    mkRow ["Bin"] repoA [("Bin", 0)] ∈ pass2Rows fBin ["Bin"] [repoA] 1
    ∧ (mkRow ["Bin"] repoA [("Bin", 0)]).get? 3 = some (.str "Bin")
    ∧ (∀ c ∈ (mkRow ["Bin"] repoA [("Bin", 0)]).drop 9, c = .int 0) :=
  c8_zero_bytes_row fBin ["Bin"] [repoA] 1 repoA "Bin" 0 []
    (by decide) (by decide) rfl (by decide)

theorem c9_witness :
    get_github_repo_languages netEmpty fAcme fAcme 10 1 0
      = some ⟨["Repository", "URL", "Description", "Primary Language",
               "Created At", "Updated At", "Stars", "Forks", "Private"], []⟩ :=
  c9_empty_org netEmpty fAcme fAcme 10 0 0 5 0 rfl

theorem c10_witness :
    get_github_repo_languages netAB fAcme fAcme 2 5 0
      = get_github_repo_languages netAB fAcme fAcme 3 5 0 :=
  c10_batch_size_invariance netAB fAcme fAcme 2 3 5 0 (by decide) (by decide)
